import Mathlib

/-!
Verification of the knowledge-graph visualization engine of the ICD-AutoCoder
frontend (`GraphViewer.jsx`): the graph model builder (fallback construction
from a prediction result, and construction on top of an externally fetched
graph) and the force-directed layout engine `calculateNodePositions`.

Modelling conventions:
- JS numbers are modelled as `ℚ`; `Math.cos`, `Math.sin`, `Math.sqrt` and `π`
  are abstracted into a `NumEnv` of arbitrary rational-valued functions, so
  every universally quantified theorem below holds for any floating-point
  realisation of these functions.
- JS objects used as string-keyed maps (`positions`, `forces`) are modelled as
  association lists with JS assignment semantics (update first occurrence,
  else append).  A JS object key produced from `undefined` is the string
  "undefined" (JS coerces property keys to strings).
- Possibly-absent record fields are `Option`; code paths that would throw a
  `TypeError` on an absent field are modelled in `Except String`.
- `x || y` on a possibly-absent number (`node.probability || 0.5`) is `jsOrHalf`:
  both `undefined` and `0` are falsy.
- `s.split('.')` is `splitDot`, `parts.join('.')` is `joinDot`,
  `s.startsWith(p)` is `strStarts`, `s.includes(p)` is `strHasSub`.
-/

/-! ### String helpers (JS `split('.')`, `join('.')`, `startsWith`, `includes`) -/

/-- JS `String.prototype.split('.')`, char by char. -/
def splitDotAux : List Char → List Char → List String
  | [], cur => [String.mk cur.reverse]
  | c :: rest, cur =>
    if c = '.' then String.mk cur.reverse :: splitDotAux rest []
    else splitDotAux rest (c :: cur)

def splitDot (s : String) : List String := splitDotAux s.data []

/-- JS `Array.prototype.join('.')`. -/
def joinDot : List String → String
  | [] => ""
  | s :: rest => if rest.isEmpty then s else s ++ "." ++ joinDot rest

/-- `startsList pat s` is true when `pat` begins `s`. -/
def startsList : List Char → List Char → Bool
  | [], _ => true
  | _ :: _, [] => false
  | a :: t, b :: u => a == b && startsList t u

/-- JS `s.startsWith(pat)`. -/
def strStarts (s pat : String) : Bool := startsList pat.data s.data

def hasSubList (pat : List Char) : List Char → Bool
  | [] => startsList pat []
  | s@(_ :: rest) => startsList pat s || hasSubList pat rest

/-- JS `s.includes(pat)` (substring containment). -/
def strHasSub (s pat : String) : Bool := hasSubList pat.data s.data

/-- JS `v || 0.5` on a possibly-absent number: `undefined` and `0` are falsy. -/
def jsOrHalf : Option ℚ → ℚ
  | some q => if q = 0 then 1/2 else q
  | none => 1/2

/-! ### Data model of the Graph Model Builder (`GraphViewer.jsx`)

`VNode` models the node records the builder manipulates.  All fields of an
externally fetched node record may be absent, hence `Option`.  `level` is only
ever written (never read) so it is modelled as `Option Nat` (the values the
builder itself writes are `parts.length` and `0`).  `VEdge` models the edge
records; the builder always writes all four fields of the edges it creates,
and no builder logic reads an external edge's `type` or `weight`, so these two
are plain fields. -/

structure VNode where
  id : Option String
  label : Option String
  type : Option String
  level : Option Nat
  probability : Option ℚ
deriving DecidableEq

structure VEdge where
  source : String
  target : String
  type : String
  weight : ℚ
deriving DecidableEq

/-- One ranked ICD prediction `{code, description, probability}`; an absent
`description` is modelled as `""` (both are JS-falsy in `description || code`). -/
structure IcdPred where
  code : String
  description : String
  probability : ℚ
deriving DecidableEq

/-- A prediction result: ranked predictions plus the entity-category map in
`Object.entries` order.  An absent/empty `entities` object is `[]`. -/
structure Prediction where
  icdPredictions : List IcdPred
  entities : List (String × List String)
deriving DecidableEq

/-- An externally fetched graph `{nodes, edges, entities}`; an absent/null
`entities` field behaves exactly like `[]` under the guard at line 493. -/
structure ExtGraph where
  nodes : List VNode
  edges : List VEdge
  entities : List (String × List String)
deriving DecidableEq

/-- `pred.description || pred.code` (lines 198, 281). -/
def jsLabel (desc code : String) : String := if desc = "" then code else desc

/-- The entity node pushed at lines 301-306 / 498-503:
`{id: entity_<type>_<entity>, label: entity, type: entity_<type>, level: 0}`. -/
def entityNodeOf (ty e : String) : VNode :=
  { id := some ("entity_" ++ ty ++ "_" ++ e), label := some e,
    type := some ("entity_" ++ ty), level := some 0, probability := none }

/-- Lines 280-286 / 197-203: ICD nodes synthesized from the top 5 predictions. -/
def fallbackIcdNodes (p : Prediction) : List VNode :=
  (p.icdPredictions.take 5).map fun pred =>
    { id := some pred.code, label := some (jsLabel pred.description pred.code),
      type := some "icd", level := some (splitDot pred.code).length,
      probability := some pred.probability }

/-- Lines 297-309: fallback entity injection — for each category the first 3
labels are pushed unconditionally (no duplicate check on this path). -/
def fallbackEntityGo : List (String × List String) → List VNode
  | [] => []
  | (ty, es) :: rest => (es.take 3).map (entityNodeOf ty) ++ fallbackEntityGo rest

def fallbackEntityNodes (ents : List (String × List String)) : List VNode :=
  fallbackEntityGo ents

/-- Lines 312-326: fallback hierarchy edges.  For each ICD node whose id has a
dot, the parent code drops the last dot-segment; an edge is pushed when a node
with the parent code exists among the ICD nodes (no duplicate check on this
path); weight is `node.probability || 0.5`. -/
def fallbackHierGo (icdNodes : List VNode) : List VNode → List VEdge
  | [] => []
  | node :: rest =>
    (match node.id with
     | none => []
     | some i =>
       if (splitDot i).length > 1 then
         let parentCode := joinDot (splitDot i).dropLast
         if icdNodes.any (fun n => n.id == some parentCode) then
           [⟨parentCode, i, "parent-child", jsOrHalf node.probability⟩]
         else []
       else []) ++ fallbackHierGo icdNodes rest

def fallbackHierEdges (icdNodes : List VNode) : List VEdge :=
  fallbackHierGo icdNodes icdNodes

/-- The weight computed at lines 334-339 / 541-547: JS tests
`entityNode.type.includes('diseases')` and `...includes('symptoms')` —
substring containment on the type string, not equality of the category. -/
def entityWeight (ty : String) (p : ℚ) : ℚ :=
  if strHasSub ty "diseases" then p * (4/5)
  else if strHasSub ty "symptoms" then p * (3/5)
  else 1/2

/-- Inner loop of lines 331-347 / 538-555: for each of the top 3 predictions,
if a node with that code exists, push an `entity-icd` edge from the entity
node to it (the found node's id equals the searched code, so the target is
written as `ip.code`).  Reading `entityNode.type` throws when the field is
absent, hence the `Except`. -/
def entityIcdInner (allNodes : List VNode) (i : String) (ty? : Option String) :
    List IcdPred → Except String (List VEdge)
  | [] => .ok []
  | ip :: rest =>
    if allNodes.any (fun n => n.id == some ip.code) then
      match ty? with
      | none => .error "TypeError: reading includes of undefined type"
      | some ty =>
        match entityIcdInner allNodes i ty? rest with
        | .error msg => .error msg
        | .ok es => .ok (⟨i, ip.code, "entity-icd", entityWeight ty ip.probability⟩ :: es)
    else entityIcdInner allNodes i ty? rest

/-- Lines 329-330 / 535-536: `entityNode.id.startsWith('entity_')` — reading
`.startsWith` of an absent id throws a `TypeError`. -/
def entityIcdFor (allNodes : List VNode) (preds3 : List IcdPred) (en : VNode) :
    Except String (List VEdge) :=
  match en.id with
  | none => .error "TypeError: reading startsWith of undefined id"
  | some i =>
    if strStarts i "entity_" then entityIcdInner allNodes i en.type preds3
    else .ok []

/-- The entity-to-ICD edge pass (lines 329-349 and 535-558, identical logic):
iterate over all nodes, collecting the pushed edges in order. -/
def entityIcdGo (allNodes : List VNode) (preds3 : List IcdPred) :
    List VNode → Except String (List VEdge)
  | [] => .ok []
  | en :: rest =>
    match entityIcdFor allNodes preds3 en with
    | .error msg => .error msg
    | .ok es =>
      match entityIcdGo allNodes preds3 rest with
      | .error msg => .error msg
      | .ok es2 => .ok (es ++ es2)

/-- The fallback builder (lines 279-352): synthesizes the whole graph from the
prediction when no external graph (or an empty one) is available. -/
def buildFallback (p : Prediction) : Except String (List VNode × List VEdge) :=
  let icdNodes := fallbackIcdNodes p
  let allNodes := icdNodes ++ fallbackEntityNodes p.entities
  match entityIcdGo allNodes (p.icdPredictions.take 3) allNodes with
  | .error msg => .error msg
  | .ok es => .ok (allNodes, fallbackHierEdges icdNodes ++ es)

/-- Lines 495-505: entity injection on the external path — a node is pushed
only when no node with the derived id is already in the growing list. -/
def injectLabels (ty : String) : List String → List VNode → List VNode
  | [], acc => acc
  | e :: rest, acc =>
    let nodeId := "entity_" ++ ty ++ "_" ++ e
    if acc.any (fun n => n.id == some nodeId) then injectLabels ty rest acc
    else injectLabels ty rest (acc ++ [entityNodeOf ty e])

def injectAll : List (String × List String) → List VNode → List VNode
  | [], acc => acc
  | (ty, es) :: rest, acc => injectAll rest (injectLabels ty (es.take 3) acc)

/-- Line 493: `if (graphData.entities && predictions)` — injection is skipped
entirely when the prediction object is null. -/
def extInjectEntities (s : List VNode) (ents : List (String × List String))
    (hasPred : Bool) : List VNode :=
  if hasPred then injectAll ents s else s

/-- Line 521: `predictions?.icdPredictions?.find(p => p.code === node.id)`. -/
def matchPred (preds? : Option Prediction) (i : String) : Option IcdPred :=
  match preds? with
  | none => none
  | some p => p.icdPredictions.find? (fun q => q.code == i)

/-- Lines 513-531: the candidate parent-child edge for one external node.
The node is skipped when its id is absent or `""` (both JS-falsy) or starts
with `entity_`; the parent code must name an existing node in
`graphData.nodes`, and no edge with the same source and target may already be
in the accumulated edge list. -/
def hierCandidate (gnodes : List VNode) (preds? : Option Prediction)
    (acc : List VEdge) (node : VNode) : Option VEdge :=
  match node.id with
  | none => none
  | some i =>
    if i != "" && !(strStarts i "entity_") then
      if (splitDot i).length > 1 then
        let parentCode := joinDot (splitDot i).dropLast
        if gnodes.any (fun n => n.id == some parentCode) then
          if !(acc.any (fun e => e.source == parentCode && e.target == i)) then
            some ⟨parentCode, i, "parent-child",
                  jsOrHalf ((matchPred preds? i).map IcdPred.probability)⟩
          else none
        else none
      else none
    else none

/-- The hierarchy pass of the external path, threading the growing edge list
(the duplicate check at line 520 reads it). -/
def extHierGo (gnodes : List VNode) (preds? : Option Prediction) :
    List VNode → List VEdge → List VEdge
  | [], acc => acc
  | node :: rest, acc =>
    match hierCandidate gnodes preds? acc node with
    | some e => extHierGo gnodes preds? rest (acc ++ [e])
    | none => extHierGo gnodes preds? rest acc

/-- The builder on top of an externally fetched graph (lines 489-571):
copy the external nodes, inject entity nodes (deduplicated), copy the external
edges unchanged, append synthesized parent-child edges, then append
entity-to-ICD edges.  The prediction object may be null on this path. -/
def buildFromExternal (g : ExtGraph) (preds? : Option Prediction) :
    Except String (List VNode × List VEdge) :=
  let allNodes := extInjectEntities g.nodes g.entities preds?.isSome
  let hier := extHierGo g.nodes preds? g.nodes g.edges
  match entityIcdGo allNodes
      (((preds?.map Prediction.icdPredictions).getD []).take 3) allNodes with
  | .error msg => .error msg
  | .ok es => .ok (allNodes, hier ++ es)

/-- Is a node with the given id present in the node list. -/
def hasNodeId (ns : List VNode) (i : String) : Bool :=
  ns.any (fun n => n.id == some i)

/-- Multiplicity of an id among the nodes. -/
def countIdV (ns : List VNode) (i : String) : Nat :=
  ns.countP (fun n => n.id == some i)

/-- The node list of a build result (empty when the build threw). -/
def builtNodes (r : Except String (List VNode × List VEdge)) : List VNode :=
  match r with
  | .ok (ns, _) => ns
  | .error _ => []

/-- The edge list of a build result (empty when the build threw). -/
def builtEdges (r : Except String (List VNode × List VEdge)) : List VEdge :=
  match r with
  | .ok (_, es) => es
  | .error _ => []

/-! ### The force-directed layout engine `calculateNodePositions` (lines 5-127)

Only `node.id`, `edge.source` and `edge.target` are read by the layout, so its
inputs are modelled by `LNode`/`LEdge`.  Positions are a string-keyed JS
object; for an empty node list `nodes[0]?.id` is `undefined` and the JS
assignment `positions[centerNodeId] = ...` creates the key "undefined".
`pmUpd` (used for the force accumulators) updates a present key and leaves the
map unchanged otherwise; in JS an absent key would throw
(`forces[k].x += ...`), which is only reachable when the node list is empty
and an edge has source and target both equal to the literal string
"undefined" — every theorem below stays outside that case. -/

structure LNode where
  id : String
deriving DecidableEq

structure LEdge where
  source : String
  target : String
deriving DecidableEq

structure Pt where
  x : ℚ
  y : ℚ
deriving DecidableEq

abbrev PMap := List (String × Pt)

def pmLookup : PMap → String → Option Pt
  | [], _ => none
  | (k, v) :: t, k2 => if k = k2 then some v else pmLookup t k2

/-- JS object assignment: overwrite the first occurrence, else append. -/
def pmSet : PMap → String → Pt → PMap
  | [], k, v => [(k, v)]
  | (k1, v1) :: t, k, v =>
    if k1 = k then (k, v) :: t else (k1, v1) :: pmSet t k v

/-- Update a present key in place; no-op when absent (see the note above). -/
def pmUpd : PMap → String → (Pt → Pt) → PMap
  | [], _, _ => []
  | (k1, v1) :: t, k, g =>
    if k1 = k then (k1, g v1) :: t else (k1, v1) :: pmUpd t k g

def pmHas (m : PMap) (k : String) : Bool := (pmLookup m k).isSome

/-- The abstracted numeric environment: arbitrary rational realisations of
`Math.cos`, `Math.sin`, `Math.sqrt` and `Math.PI`. -/
structure NumEnv where
  cos : ℚ → ℚ
  sin : ℚ → ℚ
  sqrt : ℚ → ℚ
  pi : ℚ

/-- Lines 14-22: a node's degree is the number of edge endpoints equal to it. -/
def degreeOf (edges : List LEdge) (i : String) : Nat :=
  edges.foldl (fun a e =>
    a + (if e.source = i then 1 else 0) + (if e.target = i then 1 else 0)) 0

/-- Lines 24-32: the center node is the first node of strictly maximal degree;
`nodes[0]?.id` is the string "undefined" for an empty list (JS key coercion). -/
def centerId (nodes : List LNode) (edges : List LEdge) : String :=
  match nodes with
  | [] => "undefined"
  | n0 :: _ =>
    (nodes.foldl (fun acc n =>
      if degreeOf edges n.id > acc.2 then (n.id, degreeOf edges n.id) else acc)
      (n0.id, 0)).1

/-- Lines 47-53: place the non-center nodes (with their `forEach` indices) on
the circle, in order. -/
def initOthers (env : NumEnv) (cx cy radius angleStep : ℚ) :
    List (ℕ × LNode) → PMap → PMap
  | [], m => m
  | p :: rest, m =>
    initOthers env cx cy radius angleStep rest
      (pmSet m p.2.id
        ⟨cx + radius * env.cos ((p.1 : ℚ) * angleStep),
         cy + radius * env.sin ((p.1 : ℚ) * angleStep)⟩)

/-- Lines 34-53: center at (w/2, h/2); the remaining nodes (every node whose
id differs from the center id) evenly on a circle of radius `0.4*min(w,h)`. -/
def initPositions (env : NumEnv) (nodes : List LNode) (edges : List LEdge)
    (w h : ℚ) : PMap :=
  let cx := w / 2
  let cy := h / 2
  let radius := min w h * (2/5)
  let c := centerId nodes edges
  let others := nodes.filter (fun n => n.id != c)
  let angleStep := 2 * env.pi / (max others.length 1 : ℚ)
  initOthers env cx cy radius angleStep others.enum [(c, ⟨cx, cy⟩)]

/-- `Math.sqrt(dx*dx+dy*dy) || 1` (lines 70, 90). -/
def jsDist (env : NumEnv) (dx dy : ℚ) : ℚ :=
  let d := env.sqrt (dx * dx + dy * dy)
  if d = 0 then 1 else d

/-- Lines 63-79: spring force along one edge, `(d - 200) * 0.005`. -/
def attractStep (env : NumEnv) (pos : PMap) (forces : PMap) (e : LEdge) : PMap :=
  match pmLookup pos e.source, pmLookup pos e.target with
  | some s, some t =>
    let dx := t.x - s.x
    let dy := t.y - s.y
    let d := jsDist env dx dy
    let f := (d - 200) * (5/1000)
    let f1 := pmUpd forces e.source (fun p => ⟨p.x + dx / d * f, p.y + dy / d * f⟩)
    pmUpd f1 e.target (fun p => ⟨p.x - dx / d * f, p.y - dy / d * f⟩)
  | _, _ => forces

/-- The ordered pairs `(nodes[i], nodes[j])` with `i < j` (lines 82-83). -/
def pairList : List LNode → List (LNode × LNode)
  | [] => []
  | a :: t => t.map (fun b => (a, b)) ++ pairList t

/-- Lines 82-108: pairwise repulsion, `(120-d)*2` when `d < 120`, else `2000/d²`. -/
def repelStep (env : NumEnv) (pos : PMap) (forces : PMap)
    (pr : LNode × LNode) : PMap :=
  match pmLookup pos pr.1.id, pmLookup pos pr.2.id with
  | some p1, some p2 =>
    let dx := p2.x - p1.x
    let dy := p2.y - p1.y
    let d := jsDist env dx dy
    if d < 120 then
      let f := (120 - d) * 2
      let f1 := pmUpd forces pr.1.id (fun p => ⟨p.x - dx / d * f, p.y - dy / d * f⟩)
      pmUpd f1 pr.2.id (fun p => ⟨p.x + dx / d * f, p.y + dy / d * f⟩)
    else
      let f := 2000 / (d * d)
      let f1 := pmUpd forces pr.1.id (fun p => ⟨p.x - dx / d * f, p.y - dy / d * f⟩)
      pmUpd f1 pr.2.id (fun p => ⟨p.x + dx / d * f, p.y + dy / d * f⟩)
  | _, _ => forces

def clampQ (lo hi v : ℚ) : ℚ := max lo (min hi v)

/-- Lines 110-123: advance a node's position by `0.1 *` its accumulated force,
then clamp both coordinates to `[80, dimension - 80]`.  `forces[node.id]`
always exists in JS (initialized for every node each iteration); the `getD`
only supplies the same total behaviour. -/
def applyStep (w h : ℚ) (forces : PMap) (pos : PMap) (n : LNode) : PMap :=
  match pmLookup pos n.id with
  | none => pos
  | some p =>
    let f := (pmLookup forces n.id).getD ⟨0, 0⟩
    pmSet pos n.id
      ⟨clampQ 80 (w - 80) (p.x + f.x * (1/10)),
       clampQ 80 (h - 80) (p.y + f.y * (1/10))⟩

/-- One iteration of the relaxation loop (lines 56-124): reset the force
accumulators, add edge attraction, add pairwise repulsion, apply and clamp. -/
def iterStep (env : NumEnv) (nodes : List LNode) (edges : List LEdge)
    (w h : ℚ) (pos : PMap) : PMap :=
  let forces0 := nodes.foldl (fun m n => pmSet m n.id ⟨0, 0⟩) []
  let f1 := edges.foldl (attractStep env pos) forces0
  let f2 := (pairList nodes).foldl (repelStep env pos) f1
  nodes.foldl (applyStep w h f2) pos

def layoutIter (env : NumEnv) (nodes : List LNode) (edges : List LEdge)
    (w h : ℚ) : Nat → PMap → PMap
  | 0, pos => pos
  | n + 1, pos => layoutIter env nodes edges w h n (iterStep env nodes edges w h pos)

/-- Lines 5-127: the full layout — initial circular placement followed by 50
fixed iterations of the force simulation. -/
def calculateNodePositions (env : NumEnv) (nodes : List LNode)
    (edges : List LEdge) (w h : ℚ) : PMap :=
  layoutIter env nodes edges w h 50 (initPositions env nodes edges w h)

/-- A concrete numeric environment for witnesses. -/
def trivEnv : NumEnv := ⟨fun _ => 1, fun _ => 0, fun _ => 1, 3⟩

/-- Both coordinates are fixed points of the boundary clamp. -/
def isClamped (w h : ℚ) (p : Pt) : Prop :=
  p.x = clampQ 80 (w - 80) p.x ∧ p.y = clampQ 80 (h - 80) p.y

/-! ### Concrete instances used by witnesses and counterexamples -/

/-- The prediction of the spec's worked example (§8): two predictions
410.71 (p=0.9) and 410.7 (p=0.8), one disease entity "MI". -/
def predC1 : Prediction :=
  ⟨[⟨"410.71", "d1", 9/10⟩, ⟨"410.7", "d2", 4/5⟩],
   [("diseases", ["MI"]), ("symptoms", []), ("procedures", []), ("medications", [])]⟩

/-- The nodes the fallback builder actually produces on `predC1`. -/
def nodesC1 : List VNode :=
  [⟨some "410.71", some "d1", some "icd", some 2, some (9/10)⟩,
   ⟨some "410.7", some "d2", some "icd", some 2, some (4/5)⟩,
   ⟨some "entity_diseases_MI", some "MI", some "entity_diseases", some 0, none⟩]

/-- The edges the fallback builder actually produces on `predC1`: only the two
entity-to-ICD edges; no `parent-child` edge (the derived parent of "410.71" is
"410", which is not a node). -/
def edgesC1 : List VEdge :=
  [⟨"entity_diseases_MI", "410.71", "entity-icd", 18/25⟩,
   ⟨"entity_diseases_MI", "410.7", "entity-icd", 16/25⟩]

/-- An external graph one of whose node records lacks every field. -/
def gC6 : ExtGraph := ⟨[⟨none, none, none, none, none⟩], [], []⟩

/-- An external graph whose edge list references the id "ZZZ", absent from its
node list. -/
def gC2 : ExtGraph :=
  ⟨[⟨some "A", some "A", some "icd", none, none⟩],
   [⟨"A", "ZZZ", "related", 1⟩], []⟩

/-- An external graph with one entity node whose type contains "diseases" as a
substring without the category being `diseases`, plus one ICD node. -/
def gC7 : ExtGraph :=
  ⟨[⟨some "entity_undiseasesx_E", some "E", some "entity_undiseasesx", none, none⟩,
    ⟨some "C1", some "C1", some "icd", none, none⟩], [], []⟩

/-- Two ranked predictions; only the code of the first exists as a node of `gC7`. -/
def predC7 : Prediction := ⟨[⟨"C1", "", 1/2⟩, ⟨"C2", "", 1/2⟩], []⟩

/-- A prediction whose `diseases` category lists the same label twice. -/
def predC8 : Prediction := ⟨[⟨"A", "", 1/2⟩], [("diseases", ["MI", "MI"])]⟩

/-- An external graph plus a duplicate-label entity list, for the C8 witness. -/
def gC8W : ExtGraph :=
  ⟨[⟨some "A", some "A", some "icd", none, none⟩], [], [("diseases", ["MI", "MI"])]⟩

/-! ### Lemmas about the JS-object model -/

theorem pmLookup_pmSet (m : PMap) (k : String) (v : Pt) (k2 : String) :
    pmLookup (pmSet m k v) k2 = if k = k2 then some v else pmLookup m k2 := by
  induction m with
  | nil => simp [pmSet, pmLookup]
  | cons hd t ih =>
    obtain ⟨k1, v1⟩ := hd
    by_cases h1 : k1 = k
    · subst h1
      simp only [pmSet, if_pos rfl, pmLookup]
      by_cases h2 : k1 = k2 <;> simp [h2]
    · simp only [pmSet, if_neg h1, pmLookup]
      by_cases h2 : k1 = k2
      · subst h2
        simp [if_neg (Ne.symm h1), pmLookup]
      · simp [if_neg h2, ih]

theorem pmLookup_pmUpd (m : PMap) (k : String) (g : Pt → Pt) (k2 : String) :
    pmLookup (pmUpd m k g) k2 =
      if k = k2 then (pmLookup m k).map g else pmLookup m k2 := by
  induction m with
  | nil => simp [pmUpd, pmLookup]
  | cons hd t ih =>
    obtain ⟨k1, v1⟩ := hd
    by_cases h1 : k1 = k
    · subst h1
      simp only [pmUpd, if_pos rfl, pmLookup]
      by_cases h2 : k1 = k2 <;> simp [h2]
    · simp only [pmUpd, if_neg h1, pmLookup]
      by_cases h2 : k1 = k2
      · subst h2
        simp [if_neg (Ne.symm h1), pmLookup, if_neg h1]
      · simp [if_neg h2, ih]

theorem pmHas_pmSet (m : PMap) (k : String) (v : Pt) (k2 : String) :
    pmHas (pmSet m k v) k2 = true ↔ k = k2 ∨ pmHas m k2 = true := by
  simp only [pmHas, pmLookup_pmSet]
  by_cases h : k = k2 <;> simp [h]

/-! ### Layout: domain lemmas -/

theorem pmHas_initOthers (env : NumEnv) (cx cy radius angleStep : ℚ)
    (l : List (ℕ × LNode)) (m0 : PMap) (k : String) :
    pmHas (initOthers env cx cy radius angleStep l m0) k = true ↔
      k ∈ l.map (fun p => p.2.id) ∨ pmHas m0 k = true := by
  induction l generalizing m0 with
  | nil => simp [initOthers]
  | cons b rest ih =>
    simp only [initOthers, ih, List.map_cons, List.mem_cons, pmHas_pmSet]
    constructor
    · rintro (h | h | h)
      · exact Or.inl (Or.inr h)
      · exact Or.inl (Or.inl h.symm)
      · exact Or.inr h
    · rintro ((h | h) | h)
      · exact Or.inr (Or.inl h.symm)
      · exact Or.inl h
      · exact Or.inr (Or.inr h)

theorem enumFrom_map_snd_comp {α β : Type} (g : α → β) :
    ∀ (k : ℕ) (l : List α), (List.enumFrom k l).map (fun p => g p.2) = l.map g
  | _, [] => rfl
  | k, a :: t => by
    simp only [List.enumFrom, List.map_cons, List.map]
    rw [enumFrom_map_snd_comp g (k + 1) t]

theorem enum_map_snd_comp {α β : Type} (g : α → β) (l : List α) :
    l.enum.map (fun p => g p.2) = l.map g :=
  enumFrom_map_snd_comp g 0 l

theorem centerId_mem (nodes : List LNode) (edges : List LEdge)
    (h : nodes ≠ []) : centerId nodes edges ∈ nodes.map LNode.id := by
  match nodes with
  | [] => exact absurd rfl h
  | n0 :: rest =>
    show (List.foldl _ (n0.id, 0) (n0 :: rest)).1 ∈ _
    have aux : ∀ (l : List LNode) (acc : String × Nat),
        acc.1 ∈ (n0 :: rest).map LNode.id → (∀ n ∈ l, n ∈ n0 :: rest) →
        (l.foldl (fun acc n =>
          if degreeOf edges n.id > acc.2 then (n.id, degreeOf edges n.id) else acc)
          acc).1 ∈ (n0 :: rest).map LNode.id := by
      intro l
      induction l with
      | nil => intro acc hacc _; exact hacc
      | cons a t ih =>
        intro acc hacc hsub
        simp only [List.foldl_cons]
        by_cases hd : degreeOf edges a.id > acc.2
        · simp only [if_pos hd]
          exact ih _ (List.mem_map_of_mem LNode.id (hsub a (List.mem_cons_self a t)))
            (fun n hn => hsub n (List.mem_cons_of_mem a hn))
        · simp only [if_neg hd]
          exact ih _ hacc (fun n hn => hsub n (List.mem_cons_of_mem a hn))
    exact aux (n0 :: rest) (n0.id, 0)
      (List.mem_map_of_mem LNode.id (List.mem_cons_self n0 rest)) (fun n hn => hn)

theorem pmHas_initPositions (env : NumEnv) (nodes : List LNode)
    (edges : List LEdge) (w h : ℚ) (k : String) :
    pmHas (initPositions env nodes edges w h) k = true ↔
      k = centerId nodes edges ∨
        k ∈ ((nodes.filter (fun n => n.id != centerId nodes edges)).map LNode.id) := by
  simp only [initPositions]
  rw [pmHas_initOthers]
  rw [show ∀ l : List LNode, l.enum.map (fun p => p.2.id) = l.map LNode.id from
    fun l => enum_map_snd_comp LNode.id l]
  constructor
  · rintro (hmem | hhas)
    · exact Or.inr hmem
    · left
      simp only [pmHas, pmLookup] at hhas
      by_cases hc : centerId nodes edges = k
      · exact hc.symm
      · simp [if_neg hc, pmLookup] at hhas
  · rintro (hc | hmem)
    · right
      simp [pmHas, pmLookup, hc]
    · exact Or.inl hmem

theorem pmHas_applyStep (w h : ℚ) (f : PMap) (pos : PMap) (n : LNode)
    (k : String) : pmHas (applyStep w h f pos n) k = pmHas pos k := by
  unfold applyStep
  cases hp : pmLookup pos n.id with
  | none => rfl
  | some p =>
    simp only [pmHas, pmLookup_pmSet]
    by_cases hk : n.id = k
    · subst hk
      simp [hp]
    · simp [if_neg hk]

theorem pmHas_applyFold (w h : ℚ) (f : PMap) (nodes : List LNode) (pos : PMap)
    (k : String) :
    pmHas (nodes.foldl (applyStep w h f) pos) k = pmHas pos k := by
  induction nodes generalizing pos with
  | nil => rfl
  | cons n rest ih =>
    simp only [List.foldl_cons]
    rw [ih, pmHas_applyStep]

theorem pmHas_iterStep (env : NumEnv) (nodes : List LNode) (edges : List LEdge)
    (w h : ℚ) (pos : PMap) (k : String) :
    pmHas (iterStep env nodes edges w h pos) k = pmHas pos k := by
  unfold iterStep
  exact pmHas_applyFold w h _ nodes pos k

theorem pmHas_layoutIter (env : NumEnv) (nodes : List LNode)
    (edges : List LEdge) (w h : ℚ) (n : Nat) (pos : PMap) (k : String) :
    pmHas (layoutIter env nodes edges w h n pos) k = pmHas pos k := by
  induction n generalizing pos with
  | zero => rfl
  | succ m ih =>
    show pmHas (layoutIter env nodes edges w h m _) k = _
    rw [ih, pmHas_iterStep]

theorem pmHas_calc (env : NumEnv) (nodes : List LNode) (edges : List LEdge)
    (w h : ℚ) (k : String) :
    pmHas (calculateNodePositions env nodes edges w h) k =
      pmHas (initPositions env nodes edges w h) k := by
  unfold calculateNodePositions
  exact pmHas_layoutIter env nodes edges w h 50 _ k

/-- The domain of the returned position map is exactly the set of input node
ids, as soon as there is at least one node. -/
theorem pmHas_calc_iff (env : NumEnv) (nodes : List LNode) (edges : List LEdge)
    (w h : ℚ) (hne : nodes ≠ []) (k : String) :
    pmHas (calculateNodePositions env nodes edges w h) k = true ↔
      k ∈ nodes.map LNode.id := by
  rw [pmHas_calc, pmHas_initPositions]
  constructor
  · rintro (hc | hmem)
    · exact hc ▸ centerId_mem nodes edges hne
    · simp only [List.mem_map, List.mem_filter] at hmem
      obtain ⟨n, ⟨hn, _⟩, hid⟩ := hmem
      exact hid ▸ List.mem_map_of_mem LNode.id hn
  · intro hk
    by_cases hc : k = centerId nodes edges
    · exact Or.inl hc
    · right
      simp only [List.mem_map] at hk
      obtain ⟨n, hn, hid⟩ := hk
      subst hid
      refine List.mem_map_of_mem LNode.id (List.mem_filter.mpr ⟨hn, ?_⟩)
      exact bne_iff_ne.mpr hc

/-! ### Layout: clamping -/

theorem clampQ_ge (lo hi v : ℚ) : lo ≤ clampQ lo hi v := le_max_left lo _

theorem clampQ_le (lo hi v : ℚ) (h : lo ≤ hi) : clampQ lo hi v ≤ hi :=
  max_le h (min_le_left hi v)

theorem clampQ_of_between (lo hi v : ℚ) (h1 : lo ≤ v) (h2 : v ≤ hi) :
    clampQ lo hi v = v := by
  unfold clampQ
  rw [min_eq_right h2, max_eq_right h1]

theorem clampQ_of_hi_le (lo hi : ℚ) (h : hi ≤ lo) (v : ℚ) : clampQ lo hi v = lo := by
  unfold clampQ
  exact max_eq_left (le_trans (min_le_left hi v) h)

theorem clampQ_idem (lo hi v : ℚ) : clampQ lo hi (clampQ lo hi v) = clampQ lo hi v := by
  rcases le_total hi lo with h | h
  · rw [clampQ_of_hi_le lo hi h (clampQ lo hi v), clampQ_of_hi_le lo hi h v]
  · exact clampQ_of_between lo hi _ (clampQ_ge lo hi v) (clampQ_le lo hi v h)

theorem applyFold_frozen (w h : ℚ) (f : PMap) (nodes : List LNode) (pos : PMap)
    (k : String) (hk : k ∉ nodes.map LNode.id) :
    pmLookup (nodes.foldl (applyStep w h f) pos) k = pmLookup pos k := by
  induction nodes generalizing pos with
  | nil => rfl
  | cons n rest ih =>
    simp only [List.map_cons, List.mem_cons] at hk
    push_neg at hk
    simp only [List.foldl_cons]
    rw [ih _ hk.2]
    unfold applyStep
    cases hp : pmLookup pos n.id with
    | none => rfl
    | some p => simp [pmLookup_pmSet, if_neg (Ne.symm hk.1)]

theorem applyFold_clamped (w h : ℚ) (f : PMap) (nodes : List LNode)
    (pos : PMap) (k : String) (p : Pt) (hk : k ∈ nodes.map LNode.id)
    (hl : pmLookup (nodes.foldl (applyStep w h f) pos) k = some p) :
    isClamped w h p := by
  induction nodes generalizing pos with
  | nil => simp at hk
  | cons n rest ih =>
    simp only [List.foldl_cons] at hl
    by_cases hrest : k ∈ rest.map LNode.id
    · exact ih _ hrest hl
    · have hkn : k = n.id := by
        simp only [List.map_cons, List.mem_cons] at hk
        tauto
      subst hkn
      rw [applyFold_frozen w h f rest _ n.id hrest] at hl
      unfold applyStep at hl
      cases hp : pmLookup pos n.id with
      | none =>
        rw [hp] at hl
        rw [hl] at hp
        simp at hp
      | some q =>
        rw [hp] at hl
        simp only [pmLookup_pmSet, if_pos rfl] at hl
        have hp2 := Option.some.inj hl
        rw [← hp2]
        constructor
        · exact (clampQ_idem _ _ _).symm
        · exact (clampQ_idem _ _ _).symm

theorem layoutIter_succ (env : NumEnv) (nodes : List LNode)
    (edges : List LEdge) (w h : ℚ) (n : Nat) (pos : PMap) :
    layoutIter env nodes edges w h (n + 1) pos =
      iterStep env nodes edges w h (layoutIter env nodes edges w h n pos) := by
  induction n generalizing pos with
  | zero => rfl
  | succ m ih =>
    show layoutIter env nodes edges w h (m + 1) (iterStep env nodes edges w h pos) = _
    rw [ih]
    rfl

/-- Core clamping fact: every entry of the returned map (for a nonempty node
list) is a fixed point of the boundary clamp in both coordinates. -/
theorem calc_entries_clamped (env : NumEnv) (nodes : List LNode)
    (edges : List LEdge) (w h : ℚ) (hne : nodes ≠ []) (k : String) (p : Pt)
    (hl : pmLookup (calculateNodePositions env nodes edges w h) k = some p) :
    isClamped w h p := by
  have hcalc : calculateNodePositions env nodes edges w h =
      iterStep env nodes edges w h (layoutIter env nodes edges w h 49
        (initPositions env nodes edges w h)) := by
    unfold calculateNodePositions
    exact layoutIter_succ env nodes edges w h 49 _
  rw [hcalc] at hl
  by_cases hk : k ∈ nodes.map LNode.id
  · unfold iterStep at hl
    exact applyFold_clamped w h _ nodes _ k p hk hl
  · exfalso
    have hhas : pmHas (calculateNodePositions env nodes edges w h) k = true := by
      rw [hcalc]
      simp [pmHas, hl]
    exact hk ((pmHas_calc_iff env nodes edges w h hne k).mp hhas)

/-- With no nodes the apply phase walks an empty list, so every iteration
returns the position map unchanged. -/
theorem layoutIter_nil (env : NumEnv) (edges : List LEdge) (w h : ℚ)
    (n : Nat) (pos : PMap) : layoutIter env [] edges w h n pos = pos := by
  induction n generalizing pos with
  | zero => rfl
  | succ m ih => exact ih _

theorem layoutIter_fixpoint (env : NumEnv) (nodes : List LNode)
    (edges : List LEdge) (w h : ℚ) (pos : PMap)
    (hfix : iterStep env nodes edges w h pos = pos) (n : Nat) :
    layoutIter env nodes edges w h n pos = pos := by
  induction n with
  | zero => rfl
  | succ m ih =>
    show layoutIter env nodes edges w h m (iterStep env nodes edges w h pos) = pos
    rw [hfix, ih]

/-! ### Builder lemmas: appended-only structure and node shapes -/

/-- A node produced by entity injection. -/
def entShaped (n : VNode) : Prop := ∃ ty e, n = entityNodeOf ty e

theorem injectLabels_append (ty : String) (l : List String) (acc : List VNode) :
    ∃ t, injectLabels ty l acc = acc ++ t ∧ ∀ n ∈ t, entShaped n := by
  induction l generalizing acc with
  | nil => exact ⟨[], by simp [injectLabels], by simp⟩
  | cons e rest ih =>
    unfold injectLabels
    by_cases hdup : acc.any (fun n => n.id == some ("entity_" ++ ty ++ "_" ++ e))
    · simp only [hdup, if_true]
      exact ih acc
    · simp only [hdup, if_false]
      obtain ⟨t, ht, hshape⟩ := ih (acc ++ [entityNodeOf ty e])
      refine ⟨entityNodeOf ty e :: t, ?_, ?_⟩
      · rw [ht, List.append_assoc]
        rfl
      · intro n hn
        rcases List.mem_cons.mp hn with h | h
        · exact ⟨ty, e, h⟩
        · exact hshape n h

theorem injectAll_append (ents : List (String × List String)) (acc : List VNode) :
    ∃ t, injectAll ents acc = acc ++ t ∧ ∀ n ∈ t, entShaped n := by
  induction ents generalizing acc with
  | nil => exact ⟨[], by simp [injectAll], by simp⟩
  | cons p rest ih =>
    obtain ⟨ty, es⟩ := p
    obtain ⟨t1, ht1, hs1⟩ := injectLabels_append ty (es.take 3) acc
    obtain ⟨t2, ht2, hs2⟩ := ih (injectLabels ty (es.take 3) acc)
    refine ⟨t1 ++ t2, ?_, ?_⟩
    · show injectAll rest (injectLabels ty (es.take 3) acc) = _
      rw [ht2, ht1, List.append_assoc]
    · intro n hn
      rcases List.mem_append.mp hn with h | h
      · exact hs1 n h
      · exact hs2 n h

theorem extInjectEntities_append (s : List VNode)
    (ents : List (String × List String)) (b : Bool) :
    ∃ t, extInjectEntities s ents b = s ++ t ∧ ∀ n ∈ t, entShaped n := by
  unfold extInjectEntities
  cases b with
  | false => exact ⟨[], by simp, by simp⟩
  | true =>
    simp only [if_true]
    exact injectAll_append ents s

theorem entShaped_fields (n : VNode) (h : entShaped n) :
    n.id.isSome = true ∧ n.type.isSome = true := by
  obtain ⟨ty, e, rfl⟩ := h
  exact ⟨rfl, rfl⟩

/-! ### Builder lemmas: entity-node multiplicity on the external path -/

theorem countIdV_append (a b : List VNode) (i : String) :
    countIdV (a ++ b) i = countIdV a i + countIdV b i := by
  simp [countIdV, List.countP_append]

theorem injectLabels_count (ty : String) (i : String) (N : Nat) (hN : 1 ≤ N) :
    ∀ (l : List String) (acc : List VNode), countIdV acc i ≤ N →
      countIdV (injectLabels ty l acc) i ≤ N := by
  intro l
  induction l with
  | nil => intro acc hacc; exact hacc
  | cons e rest ih =>
    intro acc hacc
    unfold injectLabels
    by_cases hdup : acc.any (fun n => n.id == some ("entity_" ++ ty ++ "_" ++ e))
    · simp only [hdup, if_true]
      exact ih acc hacc
    · simp only [hdup, if_false]
      refine ih _ ?_
      rw [countIdV_append]
      by_cases hi : ("entity_" ++ ty ++ "_" ++ e) = i
      · have hzero : countIdV acc i = 0 := by
          rw [← hi]
          simp only [countIdV, List.countP_eq_zero]
          intro n hn
          intro hcontra
          exact absurd (List.any_eq_true.mpr ⟨n, hn, hcontra⟩) hdup
        have hone : countIdV [entityNodeOf ty e] i = 1 := by
          simp [countIdV, List.countP_cons, entityNodeOf, hi]
        omega
      · have hzero : countIdV [entityNodeOf ty e] i = 0 := by
          simp [countIdV, List.countP_cons, entityNodeOf, hi]
        omega

theorem injectAll_count (i : String) (N : Nat) (hN : 1 ≤ N) :
    ∀ (ents : List (String × List String)) (acc : List VNode),
      countIdV acc i ≤ N → countIdV (injectAll ents acc) i ≤ N := by
  intro ents
  induction ents with
  | nil => intro acc hacc; exact hacc
  | cons p rest ih =>
    intro acc hacc
    obtain ⟨ty, es⟩ := p
    exact ih _ (injectLabels_count ty i N hN (es.take 3) acc hacc)

/-! ### Builder lemmas: the entity-to-ICD pass -/

theorem entityIcdInner_ok_sub (allNodes : List VNode) (i : String)
    (ty? : Option String) :
    ∀ (ps : List IcdPred) (es : List VEdge),
      entityIcdInner allNodes i ty? ps = .ok es →
      ∀ e ∈ es, e.source = i ∧ e.type = "entity-icd" ∧
        hasNodeId allNodes e.target = true := by
  intro ps
  induction ps with
  | nil =>
    intro es hok
    simp only [entityIcdInner] at hok
    cases hok
    simp
  | cons ip rest ih =>
    intro es hok
    unfold entityIcdInner at hok
    by_cases hcode : allNodes.any (fun n => n.id == some ip.code)
    · simp only [hcode, if_true] at hok
      cases ty? with
      | none => cases hok
      | some ty =>
        cases hrec : entityIcdInner allNodes i (some ty) rest with
        | error msg => rw [hrec] at hok; cases hok
        | ok es2 =>
          rw [hrec] at hok
          cases hok
          intro e he
          rcases List.mem_cons.mp he with h | h
          · subst h
            exact ⟨rfl, rfl, hcode⟩
          · exact ih es2 hrec e h
    · simp only [hcode, if_false] at hok
      exact ih es hok

theorem entityIcdFor_ok_sub (allNodes : List VNode) (preds3 : List IcdPred)
    (en : VNode) (hen : en ∈ allNodes) (es : List VEdge)
    (hok : entityIcdFor allNodes preds3 en = .ok es) :
    ∀ e ∈ es, hasNodeId allNodes e.source = true ∧
      hasNodeId allNodes e.target = true := by
  unfold entityIcdFor at hok
  cases hid : en.id with
  | none => rw [hid] at hok; cases hok
  | some i =>
    rw [hid] at hok
    by_cases hst : strStarts i "entity_"
    · simp only [hst, if_true] at hok
      intro e he
      obtain ⟨hsrc, _, htgt⟩ := entityIcdInner_ok_sub allNodes i en.type preds3 es hok e he
      refine ⟨?_, htgt⟩
      rw [hsrc]
      exact List.any_eq_true.mpr ⟨en, hen, by simp [hid]⟩
    · simp only [hst, if_false] at hok
      cases hok
      simp

theorem entityIcdGo_ok_sub (allNodes : List VNode) (preds3 : List IcdPred) :
    ∀ (l : List VNode) (es : List VEdge),
      entityIcdGo allNodes preds3 l = .ok es → (∀ en ∈ l, en ∈ allNodes) →
      ∀ e ∈ es, hasNodeId allNodes e.source = true ∧
        hasNodeId allNodes e.target = true := by
  intro l
  induction l with
  | nil =>
    intro es hok _
    simp only [entityIcdGo] at hok
    cases hok
    simp
  | cons en rest ih =>
    intro es hok hsub
    unfold entityIcdGo at hok
    cases hfor : entityIcdFor allNodes preds3 en with
    | error msg => rw [hfor] at hok; cases hok
    | ok es1 =>
      rw [hfor] at hok
      cases hrec : entityIcdGo allNodes preds3 rest with
      | error msg => rw [hrec] at hok; cases hok
      | ok es2 =>
        rw [hrec] at hok
        cases hok
        intro e he
        rcases List.mem_append.mp he with h | h
        · exact entityIcdFor_ok_sub allNodes preds3 en
            (hsub en (List.mem_cons_self en rest)) es1 hfor e h
        · exact ih es2 hrec (fun x hx => hsub x (List.mem_cons_of_mem en hx)) e h

theorem entityIcdInner_ok_of (allNodes : List VNode) (i : String) (ty : String) :
    ∀ (ps : List IcdPred), ∃ es, entityIcdInner allNodes i (some ty) ps = .ok es := by
  intro ps
  induction ps with
  | nil => exact ⟨[], rfl⟩
  | cons ip rest ih =>
    obtain ⟨es, hes⟩ := ih
    unfold entityIcdInner
    by_cases hcode : allNodes.any (fun n => n.id == some ip.code)
    · simp only [hcode, if_true]
      rw [hes]
      exact ⟨_, rfl⟩
    · simp only [hcode, if_false]
      exact ⟨es, hes⟩

theorem entityIcdGo_ok_of (allNodes : List VNode) (preds3 : List IcdPred) :
    ∀ (l : List VNode),
      (∀ en ∈ l, en.id.isSome = true ∧ en.type.isSome = true) →
      ∃ es, entityIcdGo allNodes preds3 l = .ok es := by
  intro l
  induction l with
  | nil => exact fun _ => ⟨[], rfl⟩
  | cons en rest ih =>
    intro hshape
    obtain ⟨hid, hty⟩ := hshape en (List.mem_cons_self en rest)
    obtain ⟨es2, hes2⟩ := ih (fun x hx => hshape x (List.mem_cons_of_mem en hx))
    cases hideq : en.id with
    | none => rw [hideq] at hid; cases hid
    | some i =>
      cases htyeq : en.type with
      | none => rw [htyeq] at hty; cases hty
      | some ty =>
        unfold entityIcdGo entityIcdFor
        rw [hideq]
        by_cases hst : strStarts i "entity_"
        · simp only [hst, if_true, htyeq]
          obtain ⟨es1, hes1⟩ := entityIcdInner_ok_of allNodes i ty preds3
          rw [hes1, hes2]
          exact ⟨_, rfl⟩
        · simp only [hst, if_false]
          rw [hes2]
          exact ⟨_, rfl⟩

theorem entityIcdInner_mem (allNodes : List VNode) (i : String)
    (ty? : Option String) :
    ∀ (ps : List IcdPred) (es : List VEdge),
      entityIcdInner allNodes i ty? ps = .ok es →
      ∀ ip ∈ ps, allNodes.any (fun n => n.id == some ip.code) = true →
      ∃ ty, ty? = some ty ∧
        (⟨i, ip.code, "entity-icd", entityWeight ty ip.probability⟩ : VEdge) ∈ es := by
  intro ps
  induction ps with
  | nil => intro es _ ip hip; simp at hip
  | cons q rest ih =>
    intro es hok ip hip hcode
    unfold entityIcdInner at hok
    by_cases hq : allNodes.any (fun n => n.id == some q.code)
    · simp only [hq, if_true] at hok
      cases ty? with
      | none => cases hok
      | some ty =>
        cases hrec : entityIcdInner allNodes i (some ty) rest with
        | error msg => rw [hrec] at hok; cases hok
        | ok es2 =>
          rw [hrec] at hok
          cases hok
          rcases List.mem_cons.mp hip with h | h
          · subst h
            exact ⟨ty, rfl, List.mem_cons_self _ _⟩
          · obtain ⟨ty2, hty2, hmem⟩ := ih es2 hrec ip h hcode
            cases hty2
            exact ⟨ty, rfl, List.mem_cons_of_mem _ hmem⟩
    · simp only [hq, if_false] at hok
      rcases List.mem_cons.mp hip with h | h
      · subst h
        exact absurd hcode hq
      · exact ih es hok ip h hcode

theorem entityIcdGo_mem (allNodes : List VNode) (preds3 : List IcdPred) :
    ∀ (l : List VNode) (es : List VEdge),
      entityIcdGo allNodes preds3 l = .ok es →
      ∀ en ∈ l, ∃ esn, entityIcdFor allNodes preds3 en = .ok esn ∧
        ∀ e ∈ esn, e ∈ es := by
  intro l
  induction l with
  | nil => intro es _ en hen; simp at hen
  | cons x rest ih =>
    intro es hok en hen
    unfold entityIcdGo at hok
    cases hfor : entityIcdFor allNodes preds3 x with
    | error msg => rw [hfor] at hok; cases hok
    | ok es1 =>
      rw [hfor] at hok
      cases hrec : entityIcdGo allNodes preds3 rest with
      | error msg => rw [hrec] at hok; cases hok
      | ok es2 =>
        rw [hrec] at hok
        cases hok
        rcases List.mem_cons.mp hen with h | h
        · subst h
          exact ⟨es1, hfor, fun e he => List.mem_append.mpr (Or.inl he)⟩
        · obtain ⟨esn, hesn, hmem⟩ := ih es2 hrec en h
          exact ⟨esn, hesn, fun e he => List.mem_append.mpr (Or.inr (hmem e he))⟩

/-! ### Builder lemmas: the hierarchy passes -/

theorem hierCandidate_some (gnodes : List VNode) (preds? : Option Prediction)
    (acc : List VEdge) (node : VNode) (e : VEdge)
    (h : hierCandidate gnodes preds? acc node = some e) :
    gnodes.any (fun n => n.id == some e.source) = true ∧
      node.id = some e.target ∧ e.type = "parent-child" := by
  unfold hierCandidate at h
  split at h
  · cases h
  · rename_i i hid
    split at h
    · split at h
      · dsimp only [] at h
        split at h
        · rename_i hany
          split at h
          · cases h
            exact ⟨hany, hid, rfl⟩
          · cases h
        · cases h
      · cases h
    · cases h

theorem extHierGo_append (gnodes : List VNode) (preds? : Option Prediction) :
    ∀ (l : List VNode) (acc : List VEdge), (∀ n ∈ l, n ∈ gnodes) →
      ∃ t, extHierGo gnodes preds? l acc = acc ++ t ∧
        ∀ e ∈ t, hasNodeId gnodes e.source = true ∧
          hasNodeId gnodes e.target = true := by
  intro l
  induction l with
  | nil =>
    intro acc _
    exact ⟨[], by simp [extHierGo], by simp⟩
  | cons node rest ih =>
    intro acc hsub
    unfold extHierGo
    cases hc : hierCandidate gnodes preds? acc node with
    | none =>
      exact ih acc (fun n hn => hsub n (List.mem_cons_of_mem node hn))
    | some e =>
      obtain ⟨t, ht, hp⟩ := ih (acc ++ [e])
        (fun n hn => hsub n (List.mem_cons_of_mem node hn))
      refine ⟨e :: t, ?_, ?_⟩
      · show extHierGo gnodes preds? rest (acc ++ [e]) = acc ++ e :: t
        rw [ht, List.append_assoc]
        rfl
      · intro e2 he2
        rcases List.mem_cons.mp he2 with h | h
        · subst h
          obtain ⟨hsrc, htgt, _⟩ := hierCandidate_some gnodes preds? acc node e2 hc
          refine ⟨hsrc, ?_⟩
          exact List.any_eq_true.mpr
            ⟨node, hsub node (List.mem_cons_self node rest), by simp [htgt]⟩
        · exact hp e2 h

theorem fallbackHierGo_sub (icdNodes : List VNode) :
    ∀ (l : List VNode), (∀ n ∈ l, n ∈ icdNodes) →
      ∀ e ∈ fallbackHierGo icdNodes l,
        hasNodeId icdNodes e.source = true ∧
          hasNodeId icdNodes e.target = true ∧ e.type = "parent-child" := by
  intro l
  induction l with
  | nil => intro _ e he; simp [fallbackHierGo] at he
  | cons node rest ih =>
    intro hsub e he
    unfold fallbackHierGo at he
    rcases List.mem_append.mp he with h | h
    · split at h
      · simp at h
      · rename_i i hid
        split at h
        · dsimp only [] at h
          split at h
          · rename_i hany
            simp only [List.mem_singleton] at h
            subst h
            refine ⟨hany, ?_, rfl⟩
            exact List.any_eq_true.mpr
              ⟨node, hsub node (List.mem_cons_self node rest), by simp [hid]⟩
          · simp at h
        · simp at h
    · exact ih (fun n hn => hsub n (List.mem_cons_of_mem node hn)) e h

/-! ### Builder lemmas: decomposition of build results -/

theorem buildFromExternal_ok (g : ExtGraph) (preds? : Option Prediction)
    (ns : List VNode) (es : List VEdge)
    (h : buildFromExternal g preds? = .ok (ns, es)) :
    ns = extInjectEntities g.nodes g.entities preds?.isSome ∧
      ∃ tail, entityIcdGo ns (((preds?.map Prediction.icdPredictions).getD []).take 3)
          ns = .ok tail ∧
        es = extHierGo g.nodes preds? g.nodes g.edges ++ tail := by
  unfold buildFromExternal at h
  dsimp only [] at h
  cases hgo : entityIcdGo (extInjectEntities g.nodes g.entities preds?.isSome)
      (((preds?.map Prediction.icdPredictions).getD []).take 3)
      (extInjectEntities g.nodes g.entities preds?.isSome) with
  | error msg => rw [hgo] at h; cases h
  | ok tail =>
    rw [hgo] at h
    cases h
    exact ⟨rfl, tail, hgo, rfl⟩

theorem buildFallback_ok (p : Prediction) (ns : List VNode) (es : List VEdge)
    (h : buildFallback p = .ok (ns, es)) :
    ns = fallbackIcdNodes p ++ fallbackEntityNodes p.entities ∧
      ∃ tail, entityIcdGo ns (p.icdPredictions.take 3) ns = .ok tail ∧
        es = fallbackHierEdges (fallbackIcdNodes p) ++ tail := by
  unfold buildFallback at h
  dsimp only [] at h
  cases hgo : entityIcdGo (fallbackIcdNodes p ++ fallbackEntityNodes p.entities)
      (p.icdPredictions.take 3)
      (fallbackIcdNodes p ++ fallbackEntityNodes p.entities) with
  | error msg => rw [hgo] at h; cases h
  | ok tail =>
    rw [hgo] at h
    cases h
    exact ⟨rfl, tail, hgo, rfl⟩

theorem hasNodeId_append_left (a b : List VNode) (i : String)
    (h : hasNodeId a i = true) : hasNodeId (a ++ b) i = true := by
  simp only [hasNodeId, List.any_append, Bool.or_eq_true]
  exact Or.inl h

theorem fallback_nodes_shape (p : Prediction) :
    ∀ n ∈ fallbackIcdNodes p ++ fallbackEntityNodes p.entities,
      n.id.isSome = true ∧ n.type.isSome = true := by
  intro n hn
  rcases List.mem_append.mp hn with h | h
  · simp only [fallbackIcdNodes, List.mem_map] at h
    obtain ⟨pred, _, rfl⟩ := h
    exact ⟨rfl, rfl⟩
  · unfold fallbackEntityNodes at h
    have aux : ∀ (ents : List (String × List String)),
        n ∈ fallbackEntityGo ents → entShaped n := by
      intro ents
      induction ents with
      | nil => intro hx; simp [fallbackEntityGo] at hx
      | cons q rest ih =>
        intro hx
        obtain ⟨ty, es⟩ := q
        unfold fallbackEntityGo at hx
        rcases List.mem_append.mp hx with h2 | h2
        · obtain ⟨e, _, rfl⟩ := List.mem_map.mp h2
          exact ⟨ty, e, rfl⟩
        · exact ih h2
    exact entShaped_fields n (aux p.entities h)

/-! ### Concrete layout evaluations for witnesses -/

theorem calcSingle200 :
    calculateNodePositions trivEnv [⟨"a"⟩] [] 200 200 = [("a", ⟨100, 100⟩)] := by
  have hinit : initPositions trivEnv [⟨"a"⟩] [] 200 200 = [("a", ⟨100, 100⟩)] := by
    simp +decide [initPositions, centerId, degreeOf, initOthers]
    norm_num
  have hfix : iterStep trivEnv [⟨"a"⟩] [] 200 200 [("a", ⟨100, 100⟩)] =
      [("a", ⟨100, 100⟩)] := by
    simp +decide [iterStep, applyStep, pairList, pmLookup, pmSet, clampQ]
    norm_num
  unfold calculateNodePositions
  rw [hinit]
  exact layoutIter_fixpoint trivEnv _ _ _ _ _ hfix 50

theorem calcSingle0 :
    calculateNodePositions trivEnv [⟨"a"⟩] [] 0 0 = [("a", ⟨80, 80⟩)] := by
  have hinit : initPositions trivEnv [⟨"a"⟩] [] 0 0 = [("a", ⟨0, 0⟩)] := by
    simp +decide [initPositions, centerId, degreeOf, initOthers]
  have hstep : iterStep trivEnv [⟨"a"⟩] [] 0 0 [("a", ⟨0, 0⟩)] = [("a", ⟨80, 80⟩)] := by
    simp +decide [iterStep, applyStep, pairList, pmLookup, pmSet, clampQ]
  have hfix : iterStep trivEnv [⟨"a"⟩] [] 0 0 [("a", ⟨80, 80⟩)] = [("a", ⟨80, 80⟩)] := by
    simp +decide [iterStep, applyStep, pairList, pmLookup, pmSet, clampQ]
  unfold calculateNodePositions
  rw [hinit]
  show layoutIter trivEnv [⟨"a"⟩] [] 0 0 49 (iterStep trivEnv [⟨"a"⟩] [] 0 0 [("a", ⟨0, 0⟩)]) = _
  rw [hstep]
  exact layoutIter_fixpoint trivEnv _ _ _ _ _ hfix 49

/-! ### Claim theorems -/

/-- C3: for every graph with at least one node and every canvas with
width ≥ 160 and height ≥ 160, every coordinate of every entry of the position
map returned by `calculateNodePositions` lies between the margin 80 and
dimension − 80. -/
theorem c3_layout_bounds (env : NumEnv) (nodes : List LNode)
    (edges : List LEdge) (w h : ℚ) (i : String) (p : Pt)
    (hne : nodes ≠ []) (hw : 160 ≤ w) (hh : 160 ≤ h)
    (hl : pmLookup (calculateNodePositions env nodes edges w h) i = some p) :
    80 ≤ p.x ∧ p.x ≤ w - 80 ∧ 80 ≤ p.y ∧ p.y ≤ h - 80 := by
  obtain ⟨hx, hy⟩ := calc_entries_clamped env nodes edges w h hne i p hl
  refine ⟨?_, ?_, ?_, ?_⟩
  · rw [hx]; exact clampQ_ge 80 (w - 80) p.x
  · rw [hx]; exact clampQ_le 80 (w - 80) p.x (by linarith)
  · rw [hy]; exact clampQ_ge 80 (h - 80) p.y
  · rw [hy]; exact clampQ_le 80 (h - 80) p.y (by linarith)

theorem c3_layout_bounds_witness :
    pmLookup (calculateNodePositions trivEnv [⟨"a"⟩] [] 200 200) "a" =
        some ⟨100, 100⟩ ∧
      (80 ≤ (100 : ℚ) ∧ (100 : ℚ) ≤ 200 - 80 ∧ 80 ≤ (100 : ℚ) ∧ (100 : ℚ) ≤ 200 - 80) :=
  ⟨by rw [calcSingle200]; rfl,
   c3_layout_bounds trivEnv [⟨"a"⟩] [] 200 200 "a" ⟨100, 100⟩
     (List.cons_ne_nil _ _) (by norm_num) (by norm_num)
     (by rw [calcSingle200]; rfl)⟩

/-- C9: `calculateNodePositions` is a pure function of its inputs — two calls
on identical node lists, edge lists and canvas dimensions (with the same
numeric primitives) return identical position maps; the code consults no
randomness source. -/
theorem c9_layout_deterministic (env : NumEnv) (nodes1 nodes2 : List LNode)
    (edges1 edges2 : List LEdge) (w1 w2 h1 h2 : ℚ)
    (hn : nodes1 = nodes2) (he : edges1 = edges2) (hw : w1 = w2) (hh : h1 = h2) :
    calculateNodePositions env nodes1 edges1 w1 h1 =
      calculateNodePositions env nodes2 edges2 w2 h2 := by
  rw [hn, he, hw, hh]

theorem c9_layout_deterministic_witness :
    calculateNodePositions trivEnv [⟨"a"⟩] [] 200 200 =
      calculateNodePositions trivEnv [⟨"a"⟩] [] 200 200 :=
  c9_layout_deterministic trivEnv [⟨"a"⟩] [⟨"a"⟩] [] [] 200 200 200 200
    rfl rfl rfl rfl

/-- C10: for a nonempty node list the returned position map has an entry
exactly for the ids occurring in the node list — dangling edge endpoints do
not create entries, and no node id is missed. -/
theorem c10_layout_ids (env : NumEnv) (nodes : List LNode) (edges : List LEdge)
    (w h : ℚ) (hne : nodes ≠ []) (i : String) :
    pmHas (calculateNodePositions env nodes edges w h) i = true ↔
      i ∈ nodes.map LNode.id :=
  pmHas_calc_iff env nodes edges w h hne i

theorem c10_layout_ids_witness :
    pmHas (calculateNodePositions trivEnv [⟨"a"⟩] [] 200 200) "a" = true ↔
      "a" ∈ ([⟨"a"⟩] : List LNode).map LNode.id :=
  c10_layout_ids trivEnv [⟨"a"⟩] [] 200 200 (List.cons_ne_nil _ _) "a"

/-- C4 counterexample: on an empty node list (and empty edge list) the
returned map is not empty — JS `positions[undefined] = center` creates an
entry under the key "undefined". -/
theorem c4_counterexample :
    calculateNodePositions trivEnv [] [] 100 100 ≠ [] := by
  unfold calculateNodePositions
  rw [layoutIter_nil]
  simp [initPositions, initOthers]

/-- C4 (amended): for an empty node list `calculateNodePositions` returns the
one-entry map keyed by the string "undefined" (the JS-coerced `undefined`
center id) holding the canvas center — not an empty map.  (Stated for edge
lists with no edge from "undefined" to "undefined"; on such an edge the JS
code would instead throw while accumulating forces.) -/
theorem c4_amended_empty_nodes (env : NumEnv) (edges : List LEdge) (w h : ℚ)
    (_hed : ∀ e ∈ edges, ¬(e.source = "undefined" ∧ e.target = "undefined")) :
    calculateNodePositions env [] edges w h = [("undefined", ⟨w / 2, h / 2⟩)] := by
  unfold calculateNodePositions
  rw [layoutIter_nil]
  rfl

theorem c4_amended_empty_nodes_witness :
    calculateNodePositions trivEnv [] [] 100 100 = [("undefined", ⟨100 / 2, 100 / 2⟩)] :=
  c4_amended_empty_nodes trivEnv [] 100 100 (by simp)

/-- C5 counterexample: with degenerate canvas dimensions (width = height = 0)
the engine does not return an empty layout — the single node still gets a
position (clamped to (80, 80)). -/
theorem c5_counterexample :
    calculateNodePositions trivEnv [⟨"a"⟩] [] 0 0 ≠ [] := by
  rw [calcSingle0]
  simp

/-- C5 (amended): `calculateNodePositions` has no special case for degenerate
dimensions: for width ≤ 0 and height ≤ 0 it still returns an entry for every
node, and the boundary clamp (margin 80 against dimension − 80 < 80) forces
every returned coordinate to exactly 80. -/
theorem c5_amended_degenerate (env : NumEnv) (nodes : List LNode)
    (edges : List LEdge) (w h : ℚ) (i : String) (p : Pt)
    (hne : nodes ≠ []) (hw : w ≤ 0) (hh : h ≤ 0)
    (hl : pmLookup (calculateNodePositions env nodes edges w h) i = some p) :
    p = ⟨80, 80⟩ := by
  obtain ⟨hx, hy⟩ := calc_entries_clamped env nodes edges w h hne i p hl
  have hx2 : p.x = 80 := by
    rw [hx]
    exact clampQ_of_hi_le 80 (w - 80) (by linarith) p.x
  have hy2 : p.y = 80 := by
    rw [hy]
    exact clampQ_of_hi_le 80 (h - 80) (by linarith) p.y
  cases p
  simp only [] at hx2 hy2
  rw [hx2, hy2]

theorem c5_amended_degenerate_witness :
    pmLookup (calculateNodePositions trivEnv [⟨"a"⟩] [] 0 0) "a" = some ⟨80, 80⟩ ∧
      (⟨80, 80⟩ : Pt) = ⟨80, 80⟩ :=
  ⟨by rw [calcSingle0]; rfl,
   c5_amended_degenerate trivEnv [⟨"a"⟩] [] 0 0 "a" ⟨80, 80⟩
     (List.cons_ne_nil _ _) le_rfl le_rfl (by rw [calcSingle0]; rfl)⟩

/-- C1 counterexample: on the spec's worked example the fallback builder
produces no `parent-child` edge at all — the derived parent of "410.71" is
"410" (drop the last dot-segment), and "410" is not a node; in particular
there is no parent-child edge 410.7 → 410.71 with weight 0.9. -/
theorem c1_counterexample :
    (builtEdges (buildFallback predC1)).countP (fun e => e.type == "parent-child") = 0 := by
  decide

/-- C1 (amended): on the worked example the fallback builder produces exactly
two ICD nodes (410.71, 410.7), one diseases entity node, NO parent-child edge
(the derived parent "410" of both codes is not a node), and the two
entity-to-ICD edges from the disease entity with weights 0.72 and 0.64. -/
theorem c1_amended_build : buildFallback predC1 = Except.ok (nodesC1, edgesC1) := by
  have h : buildFallback predC1 =
      Except.ok (nodesC1,
        [⟨"entity_diseases_MI", "410.71", "entity-icd", (9/10) * (4/5)⟩,
         ⟨"entity_diseases_MI", "410.7", "entity-icd", (4/5) * (4/5)⟩]) := rfl
  rw [h]
  simp only [edgesC1]
  norm_num

/-- C6 counterexample: an external graph node record lacking an `id` makes the
builder throw a TypeError at `entityNode.id.startsWith('entity_')` (line 536)
instead of degrading gracefully. -/
theorem c6_counterexample :
    buildFromExternal gC6 none =
      Except.error "TypeError: reading startsWith of undefined id" := by
  rfl

/-- C6 (amended): the builder never throws provided every external node record
carries an `id` and a `type`; the fallback path never throws for any
prediction.  (A node lacking an id always throws; one lacking a type throws
as soon as its id starts with "entity_" and a top-3 prediction code is
present, so the claim's tolerance of such malformed records fails.) -/
theorem c6_amended_no_throw (g : ExtGraph) (preds? : Option Prediction)
    (p : Prediction)
    (hshape : ∀ n ∈ g.nodes, n.id.isSome = true ∧ n.type.isSome = true) :
    (buildFromExternal g preds?).isOk = true ∧ (buildFallback p).isOk = true := by
  constructor
  · unfold buildFromExternal
    dsimp only []
    obtain ⟨t, ht, hshape2⟩ := extInjectEntities_append g.nodes g.entities preds?.isSome
    have hall : ∀ en ∈ extInjectEntities g.nodes g.entities preds?.isSome,
        en.id.isSome = true ∧ en.type.isSome = true := by
      rw [ht]
      intro en hen
      rcases List.mem_append.mp hen with h2 | h2
      · exact hshape en h2
      · exact entShaped_fields en (hshape2 en h2)
    obtain ⟨es, hes⟩ := entityIcdGo_ok_of
      (extInjectEntities g.nodes g.entities preds?.isSome)
      (((preds?.map Prediction.icdPredictions).getD []).take 3)
      (extInjectEntities g.nodes g.entities preds?.isSome) hall
    rw [hes]
    rfl
  · unfold buildFallback
    dsimp only []
    obtain ⟨es, hes⟩ := entityIcdGo_ok_of
      (fallbackIcdNodes p ++ fallbackEntityNodes p.entities)
      (p.icdPredictions.take 3)
      (fallbackIcdNodes p ++ fallbackEntityNodes p.entities)
      (fallback_nodes_shape p)
    rw [hes]
    rfl

theorem c6_amended_no_throw_witness :
    (buildFromExternal gC2 none).isOk = true ∧
      (buildFallback ⟨[], []⟩).isOk = true :=
  c6_amended_no_throw gC2 none ⟨[], []⟩ (by decide)

/-- C2 counterexample: externally supplied edges are copied through unchecked
— `gC2` has an edge targeting "ZZZ", absent from the node list, and the
builder's output still contains it, so not every output edge has both
endpoints among the output nodes. -/
theorem c2_counterexample :
    (builtEdges (buildFromExternal gC2 none)).all
      (fun e => hasNodeId (builtNodes (buildFromExternal gC2 none)) e.source &&
        hasNodeId (builtNodes (buildFromExternal gC2 none)) e.target) = false := by
  decide

/-- C2 (amended): edges the builder synthesizes itself always have both
endpoints among the output nodes, on both paths; externally supplied edges
are copied through unchanged as a prefix of the output edge list, without any
endpoint check (dangling external edges are only skipped later, at render
time). -/
theorem c2_amended_endpoints (g : ExtGraph) (preds? : Option Prediction)
    (p : Prediction) (ns ns2 : List VNode) (es es2 : List VEdge)
    (hx : buildFromExternal g preds? = .ok (ns, es))
    (hf : buildFallback p = .ok (ns2, es2)) :
    (es.take g.edges.length = g.edges ∧
      ∀ e ∈ es.drop g.edges.length,
        hasNodeId ns e.source = true ∧ hasNodeId ns e.target = true) ∧
    (∀ e ∈ es2, hasNodeId ns2 e.source = true ∧ hasNodeId ns2 e.target = true) := by
  constructor
  · obtain ⟨hns, tail, htail, hes⟩ := buildFromExternal_ok g preds? ns es hx
    obtain ⟨t1, ht1, hp1⟩ :=
      extHierGo_append g.nodes preds? g.nodes g.edges (fun n hn => hn)
    have hes2 : es = g.edges ++ (t1 ++ tail) := by
      rw [hes, ht1, List.append_assoc]
    obtain ⟨tinj, htinj, _⟩ :=
      extInjectEntities_append g.nodes g.entities preds?.isSome
    have hlift : ∀ i2 : String, hasNodeId g.nodes i2 = true → hasNodeId ns i2 = true := by
      intro i2 hi2
      rw [hns, htinj]
      exact hasNodeId_append_left g.nodes tinj i2 hi2
    constructor
    · rw [hes2]
      exact List.take_left g.edges (t1 ++ tail)
    · rw [hes2, List.drop_left g.edges (t1 ++ tail)]
      intro e he
      rcases List.mem_append.mp he with h2 | h2
      · obtain ⟨hs, ht2⟩ := hp1 e h2
        exact ⟨hlift e.source hs, hlift e.target ht2⟩
      · exact entityIcdGo_ok_sub ns _ ns tail htail (fun x hx2 => hx2) e h2
  · obtain ⟨hns2, tail2, htail2, hes2f⟩ := buildFallback_ok p ns2 es2 hf
    intro e he
    rw [hes2f] at he
    rcases List.mem_append.mp he with h2 | h2
    · obtain ⟨hs, ht2, _⟩ :=
        fallbackHierGo_sub (fallbackIcdNodes p) (fallbackIcdNodes p)
          (fun n hn => hn) e h2
      rw [hns2]
      exact ⟨hasNodeId_append_left _ _ _ hs, hasNodeId_append_left _ _ _ ht2⟩
    · exact entityIcdGo_ok_sub ns2 _ ns2 tail2 htail2 (fun x hx2 => hx2) e h2

theorem c2_amended_endpoints_witness :
    ([⟨"A", "ZZZ", "related", 1⟩] : List VEdge).take gC2.edges.length = gC2.edges :=
  (c2_amended_endpoints gC2 none ⟨[], []⟩
    [⟨some "A", some "A", some "icd", none, none⟩] []
    [⟨"A", "ZZZ", "related", 1⟩] [] rfl rfl).1.1

/-- C7 counterexample: on `gC7`/`predC7` the claim fails twice — the entity
node is connected only to the one top-3 prediction whose code exists as a node
("C1"; no edge to "C2"), and the weight is 0.5·0.8 = 0.4 (the code tests
`type.includes('diseases')`, a substring match, which hits the category
`undiseasesx`), not the 0.5 the claim assigns to a non-diseases category. -/
theorem c7_counterexample :
    (builtEdges (buildFromExternal gC7 (some predC7))).map
        (fun e => (e.source, e.target, e.type)) =
      [("entity_undiseasesx_E", "C1", "entity-icd")] ∧
    (builtEdges (buildFromExternal gC7 (some predC7))).map VEdge.weight = [2/5] := by
  constructor
  · decide
  · have h1 : (builtEdges (buildFromExternal gC7 (some predC7))).map VEdge.weight =
        [(1/2 : ℚ) * (4/5)] := rfl
    rw [h1]
    norm_num

/-- Shared core of the entity-to-ICD property: whenever the entity pass
(`entityIcdGo` over the full node list, which both builder paths run) returns
`.ok tail`, every entity node is linked in `tail` to each prediction of the
given top-3 list whose code names a node, with the `entityWeight` weight. -/
theorem entityIcd_pass_mem (ns : List VNode) (ps : List IcdPred)
    (tail : List VEdge) (htail : entityIcdGo ns ps ns = .ok tail)
    (en : VNode) (hen : en ∈ ns) (i : String) (hid : en.id = some i)
    (hstarts : strStarts i "entity_" = true) (ip : IcdPred) (hip : ip ∈ ps)
    (hcode : hasNodeId ns ip.code = true) :
    en.type ≠ none ∧
      (⟨i, ip.code, "entity-icd",
        entityWeight (en.type.getD "") ip.probability⟩ : VEdge) ∈ tail := by
  obtain ⟨esn, hesn, hsub⟩ := entityIcdGo_mem ns ps ns tail htail en hen
  have hfor : entityIcdFor ns ps en = entityIcdInner ns i en.type ps := by
    simp [entityIcdFor, hid, hstarts]
  rw [hfor] at hesn
  obtain ⟨ty, hty, hmem⟩ := entityIcdInner_mem ns i en.type ps esn hesn ip hip hcode
  constructor
  · rw [hty]
    simp
  · have hgetd : en.type.getD "" = ty := by rw [hty]; rfl
    rw [hgetd]
    exact hsub _ hmem

/-- C7 (amended): for every entity node (id starting with "entity_") of a
graph built by EITHER builder path — the fallback construction from a
prediction, or the construction on top of an external graph with a (non-null)
prediction — the builder adds an `entity-icd` edge to each of the top 3
ranked predictions WHOSE CODE IS PRESENT AS A NODE ID, with weight
probability·0.8 when the node's type string contains "diseases" as a
substring, probability·0.6 when it contains "symptoms" (and not "diseases"),
and 0.5 otherwise (`entityWeight`).  (On the external path with a null
prediction object the top-3 list is empty and no edge is added.) -/
theorem c7_amended_entity_edges (g : ExtGraph) (preds : Prediction)
    (ns : List VNode) (es : List VEdge)
    (hr : buildFromExternal g (some preds) = .ok (ns, es) ∨
      buildFallback preds = .ok (ns, es))
    (en : VNode) (hen : en ∈ ns) (i : String) (hid : en.id = some i)
    (hstarts : strStarts i "entity_" = true) (ip : IcdPred)
    (hip : ip ∈ preds.icdPredictions.take 3)
    (hcode : hasNodeId ns ip.code = true) :
    en.type ≠ none ∧
      (⟨i, ip.code, "entity-icd",
        entityWeight (en.type.getD "") ip.probability⟩ : VEdge) ∈ es := by
  rcases hr with hx | hf
  · obtain ⟨hns, tail, htail, hes⟩ := buildFromExternal_ok g (some preds) ns es hx
    obtain ⟨hty, hmem⟩ := entityIcd_pass_mem ns
      (((Option.map Prediction.icdPredictions (some preds)).getD []).take 3)
      tail htail en hen i hid hstarts ip hip hcode
    refine ⟨hty, ?_⟩
    rw [hes]
    exact List.mem_append.mpr (Or.inr hmem)
  · obtain ⟨hns, tail, htail, hes⟩ := buildFallback_ok preds ns es hf
    obtain ⟨hty, hmem⟩ := entityIcd_pass_mem ns (preds.icdPredictions.take 3)
      tail htail en hen i hid hstarts ip hip hcode
    refine ⟨hty, ?_⟩
    rw [hes]
    exact List.mem_append.mpr (Or.inr hmem)

theorem c7_amended_entity_edges_witness :
    (entityNodeOf "diseases" "MI").type ≠ none ∧
      (⟨"entity_diseases_MI", "410.71", "entity-icd",
        entityWeight ((entityNodeOf "diseases" "MI").type.getD "") ((9 : ℚ)/10)⟩ : VEdge) ∈
        [(⟨"entity_diseases_MI", "410.71", "entity-icd", (9/10 : ℚ) * (4/5)⟩ : VEdge),
         ⟨"entity_diseases_MI", "410.7", "entity-icd", (4/5 : ℚ) * (4/5)⟩] :=
  c7_amended_entity_edges ⟨[], [], []⟩ predC1 nodesC1
    [⟨"entity_diseases_MI", "410.71", "entity-icd", (9/10 : ℚ) * (4/5)⟩,
     ⟨"entity_diseases_MI", "410.7", "entity-icd", (4/5 : ℚ) * (4/5)⟩]
    (Or.inr rfl) (entityNodeOf "diseases" "MI") (by decide)
    "entity_diseases_MI" rfl (by decide)
    ⟨"410.71", "d1", 9/10⟩ (by simp [predC1]) (by decide)

/-- C8 counterexample: the fallback path pushes entity nodes without the
duplicate check, so a category listing the same label twice yields two nodes
with the identifier "entity_diseases_MI" — node ids are not unique. -/
theorem c8_counterexample :
    countIdV (builtNodes (buildFallback predC8)) "entity_diseases_MI" = 2 := by
  decide

/-- C8 (amended): on the external-graph path an entity node is added only when
no node with the derived id is already present, so each id occurs in the
output at most `max` (its multiplicity among the external nodes) 1 times; the
fallback path (see the counterexample) pushes unconditionally and can
duplicate ids. -/
theorem c8_amended_dedup (g : ExtGraph) (preds? : Option Prediction)
    (ns : List VNode) (es : List VEdge)
    (hx : buildFromExternal g preds? = .ok (ns, es)) (i : String) :
    countIdV ns i ≤ max (countIdV g.nodes i) 1 := by
  obtain ⟨hns, -⟩ := buildFromExternal_ok g preds? ns es hx
  rw [hns]
  unfold extInjectEntities
  cases hb : preds?.isSome
  · simp only [Bool.false_eq_true, if_false]
    exact le_max_left _ _
  · simp only [if_true]
    exact injectAll_count i (max (countIdV g.nodes i) 1) (le_max_right _ 1)
      g.entities g.nodes (le_max_left _ _)

theorem c8_amended_dedup_witness :
    countIdV [⟨some "A", some "A", some "icd", none, none⟩,
        entityNodeOf "diseases" "MI"] "entity_diseases_MI" ≤
      max (countIdV gC8W.nodes "entity_diseases_MI") 1 :=
  c8_amended_dedup gC8W (some ⟨[], []⟩)
    [⟨some "A", some "A", some "icd", none, none⟩, entityNodeOf "diseases" "MI"]
    [] rfl "entity_diseases_MI"
